import Mathlib

/-!
Verification of the Terms-of-Service reconciliation and acceptance engine
(`conda_anaconda_tos`): a shallow embedding of `models.py`, `path.py`,
`local.py`, `remote.py`, `api.py` and `console/render.py`, followed by
theorems settling the specification claims.

Modelling conventions:
* `datetime` values (versions, timestamps, file mtimes) are integers
  (epoch seconds); the source only ever compares them.
* Filesystem and network effects are passed explicitly: the per-channel
  record files of each search-path root, the per-channel cache file, and
  the network response are inputs, and functions that write return the
  updated state.
* Python exceptions become `Except` values; the exception hierarchy
  (`CondaToSInvalidError` subclasses `CondaToSMissingError`) is encoded by
  `ToSError.isMissing`.
-/

/-- Channels (`conda.models.channel.Channel`): identified by an optional
base URL; `channel_location`/`channel_name` form the stable key hashed by
`path.hash_channel`. -/
structure Channel where
  base_url : Option String
  channel_location : String
  channel_name : String
deriving DecidableEq

/-- `models.RemoteToSMetadata`: schema of the remote `terms.json` payload
(`version`, `text`, `support`; pydantic extra fields are not modelled). -/
structure RemoteToSMetadata where
  version : Int
  text : String
  support : String
deriving DecidableEq

/-- `models.LocalToSMetadata`: remote schema extended with the acceptance
fields. -/
structure LocalToSMetadata where
  version : Int
  text : String
  support : String
  base_url : String
  tos_accepted : Bool
  acceptance_timestamp : Int
deriving DecidableEq

/-- A metadata file path `<root>/<channel-hash>/<version>.json`. The model
is per-channel, so the channel-hash directory component is implicit; `root`
identifies the search-path root and `name` is the version-timestamp file
name. -/
structure FPath where
  root : Nat
  name : Int
deriving DecidableEq

/-- `models.LocalPair`: local metadata with its file path; `remote` is set
by reconciliation when a strictly newer remote version exists. -/
structure LocalPair where
  metadata : LocalToSMetadata
  path : FPath
  remote : Option RemoteToSMetadata := none
deriving DecidableEq

/-- `models.RemotePair`: remote metadata only (`path = None`,
`remote = None` are forced by the pydantic model). -/
structure RemotePair where
  metadata : RemoteToSMetadata
deriving DecidableEq

/-- Return type of `api.get_one_tos`: `LocalPair | RemotePair`. -/
inductive ToSPair where
  | localP (pair : LocalPair)
  | remoteP (pair : RemotePair)
deriving DecidableEq

/-- The exception taxonomy of `exceptions.py` plus Python's `ValueError`.
`CondaToSInvalidError` is a subclass of `CondaToSMissingError`; both are
caught by `except CondaToSMissingError` (see `ToSError.isMissing`). -/
inductive ToSError where
  | missing (msg : String)
  | invalid (msg : String)
  | permission (msg : String)
  | valueError (msg : String)
deriving DecidableEq

/-- Whether an exception is caught by `except CondaToSMissingError`:
`CondaToSMissingError` itself and its subclass `CondaToSInvalidError`. -/
def ToSError.isMissing : ToSError → Bool
  | .missing _ => true
  | .invalid _ => true
  | .permission _ => false
  | .valueError _ => false

/-- `models._MetadataPathPair.remote` as accessed on a `ToSPair`
(`RemotePair.remote` is forced to `None`). -/
def ToSPair.remote : ToSPair → Option RemoteToSMetadata
  | .localP lp => lp.remote
  | .remoteP _ => none

/-- `getattr(pair.metadata, "tos_accepted", None)`: only local metadata has
the attribute. -/
def ToSPair.accepted? : ToSPair → Option Bool
  | .localP lp => some lp.metadata.tos_accepted
  | .remoteP _ => none

/-- `api.get_one_tos`: reconcile the remote fetch result with the local
read result.  The two effectful sub-calls (`get_remote_metadata`,
`get_local_metadata`) are passed as their `Except` outcomes; the body is a
direct translation of the source's try/except structure, including that
only `CondaToSMissingError` (and its subclass) is caught and that the
remembered remote exception is re-raised when the local read also misses.
The version comparison is `models._ToSMetadata.__ge__`
(`self.version >= other.version`). -/
def get_one_tos (remoteResult : Except ToSError RemoteToSMetadata)
    (localResult : Except ToSError LocalPair) : Except ToSError ToSPair :=
  match remoteResult with
  | .error re =>
    if re.isMissing then
      match localResult with
      | .error le => if le.isMissing then .error re else .error le
      | .ok lp => .ok (.localP lp)
    else .error re
  | .ok rm =>
    match localResult with
    | .error le => if le.isMissing then .ok (.remoteP ⟨rm⟩) else .error le
    | .ok lp =>
      if rm.version ≤ lp.metadata.version then .ok (.localP lp)
      else .ok (.localP { metadata := lp.metadata, path := lp.path, remote := some rm })

/-! ### `path.py` -/

/-- `path.hash_channel`: raises `ValueError` for channels without a base
URL, otherwise hashes the stable `(channel_location, channel_name)` key.
The sha256 digest is modelled by its (injective) input key. -/
def hash_channel (channel : Channel) : Except ToSError (String × String) :=
  match channel.base_url with
  | none => .error (.valueError
      "channel must have a base URL. (hint: MultiChannel cannot be hashed)")
  | some _ => .ok (channel.channel_location, channel.channel_name)

/-- `path.get_metadata_path`: the per-channel metadata file
`<tos_root>/<hash>/<version.timestamp()>.json`; the channel-hash directory
is implicit in the per-channel model. -/
def get_metadata_path (tos_root : Nat) (version : Int) : FPath :=
  ⟨tos_root, version⟩

/-! ### `local.py`

The per-channel record files of one search-path root are a list of
`RecordFile` in the order `get_channel_paths` yields them (the root's
glob, sorted by file name); a whole search path is a list of roots from
highest to lowest priority, as produced by `get_search_path` (existing
directories of `SEARCH_PATH` followed by `extend_search_path`). -/

/-- What reading one record file can observe: a schema-valid payload, a
corrupt/invalid one (`FileNotFoundError`/`ValidationError`, treated as
absent), or a permission failure. -/
inductive FileContent where
  | valid (m : LocalToSMetadata)
  | corrupt
  | denied
deriving DecidableEq

/-- One metadata file on disk. -/
structure RecordFile where
  path : FPath
  content : FileContent
deriving DecidableEq

/-- `local.read_metadata`: `LocalPair | None`, propagating only permission
errors (`FileNotFoundError` and `ValidationError` yield `None`). -/
def read_metadata (f : RecordFile) : Except ToSError (Option LocalPair) :=
  match f.content with
  | .valid m => .ok (some { metadata := m, path := f.path, remote := none })
  | .corrupt => .ok none
  | .denied => .error (.permission "Unable to read metadata path.")

/-- The list comprehension of `local.get_local_metadata`: read every
candidate file in search-path order, keeping successful reads; the first
permission error aborts. -/
def parsePairs : List RecordFile → Except ToSError (List LocalPair)
  | [] => .ok []
  | f :: rest =>
    match read_metadata f with
    | .error e => .error e
    | .ok mp =>
      match parsePairs rest with
      | .error e => .error e
      | .ok ps =>
        match mp with
        | some p => .ok (p :: ps)
        | none => .ok ps

/-- `models._MetadataPathPair.__lt__` turned into the (total, transitive)
comparison key used by Python's stable `sorted`: compare the metadata
versions. -/
def pairLE (a b : LocalPair) : Prop :=
  a.metadata.version ≤ b.metadata.version

instance : DecidableRel pairLE := fun a b =>
  inferInstanceAs (Decidable (a.metadata.version ≤ b.metadata.version))

instance : IsTotal LocalPair pairLE :=
  ⟨fun a b => Int.le_total a.metadata.version b.metadata.version⟩

instance : IsTrans LocalPair pairLE := ⟨fun _ _ _ => Int.le_trans⟩

/-- Python's `list[-1]` as an `Option`. -/
def lastOpt {α : Type} : List α → Option α
  | [] => none
  | [a] => some a
  | _ :: b :: t => lastOpt (b :: t)

/-- The error message of `local.get_local_metadata`. -/
def msgNoLocal : String := "No Terms of Service metadata found"

/-- `local.get_local_metadata`: collect every record for the channel
across all roots, raise `CondaToSMissingError` if none, otherwise reverse
(lowest priority first) and take the last element of a stable ascending
sort by version — Python's stable `sorted` is `List.insertionSort` with
the reflexive comparison `pairLE`. -/
def get_local_metadata (searchPath : List (List RecordFile)) :
    Except ToSError LocalPair :=
  match parsePairs searchPath.flatten with
  | .error e => .error e
  | .ok pairs =>
    if pairs.isEmpty then .error (.missing msgNoLocal)
    else
      match lastOpt (List.insertionSort pairLE pairs.reverse) with
      | some p => .ok p
      | none => .error (.missing msgNoLocal)

/-- The `metadata` argument of `local.write_metadata`
(`LocalToSMetadata | RemoteToSMetadata`; any other type raises
`TypeError`, which Lean's type system forecloses). -/
inductive MetadataArg where
  | localM (m : LocalToSMetadata)
  | remoteM (m : RemoteToSMetadata)
deriving DecidableEq

/-- `version` of the dumped metadata argument. -/
def MetadataArg.version : MetadataArg → Int
  | .localM m => m.version
  | .remoteM m => m.version

/-- `text` of the dumped metadata argument. -/
def MetadataArg.text : MetadataArg → String
  | .localM m => m.text
  | .remoteM m => m.text

/-- `support` of the dumped metadata argument. -/
def MetadataArg.support : MetadataArg → String
  | .localM m => m.support
  | .remoteM m => m.support

/-- Writing a file into a directory listing: the file with the same name
is replaced, a new name is added.  A directory's listing order only
matters to tie-breaks between records of equal version, which no theorem
below relies on for replaced files, so replacement is modelled as
remove-then-append. -/
def upsert (files : List RecordFile) (f : RecordFile) : List RecordFile :=
  files.filter (fun g => g.path ≠ f.path) ++ [f]

/-- `local.write_metadata`: validate the channel, rebuild the metadata
with `tos_accepted` from the keyword arguments and `acceptance_timestamp`
(current UTC time) and `base_url` overridden, then serialize it to
`get_metadata_path tos_root version`, returning the written pair and
the updated directory listing of `tos_root`.  (The `PermissionError` →
`CondaToSPermissionError` translation on the write is not modelled: the
claims below only concern writable roots.) -/
def write_metadata (tos_root : Nat) (channel : Channel) (metadata : MetadataArg)
    (tos_accepted : Bool) (now : Int) (rootFiles : List RecordFile) :
    Except ToSError (LocalPair × List RecordFile) :=
  match channel.base_url with
  | none => .error (.valueError "channel must have a base URL.")
  | some url =>
    let m : LocalToSMetadata :=
      { version := metadata.version, text := metadata.text,
        support := metadata.support, base_url := url,
        tos_accepted := tos_accepted, acceptance_timestamp := now }
    let path := get_metadata_path tos_root m.version
    .ok ({ metadata := m, path := path, remote := none },
         upsert rootFiles ⟨path, .valid m⟩)

/-! ### Specification-side descriptions of the local read -/

/-- Record files that are neither corrupt nor permission-denied, as the
pairs `read_metadata` produces for them. -/
def validPairs (files : List RecordFile) : List LocalPair :=
  files.filterMap (fun f =>
    match f.content with
    | .valid m => some { metadata := m, path := f.path, remote := none }
    | _ => none)

/-- No file in the listing is permission-denied. -/
def noDenied (files : List RecordFile) : Prop :=
  ∀ f ∈ files, f.content ≠ FileContent.denied

instance (files : List RecordFile) : Decidable (noDenied files) :=
  inferInstanceAs (Decidable (∀ f ∈ files, f.content ≠ FileContent.denied))

/-- The last element of a list attaining the maximal version (ties go to
the later element). -/
def lastMax : List LocalPair → Option LocalPair
  | [] => none
  | x :: xs =>
    match lastMax xs with
    | none => some x
    | some m => if x.metadata.version ≤ m.metadata.version then some m else some x

/-- The first element of a list attaining the maximal version (ties go to
the earlier element, i.e. the higher-priority root). -/
def firstMax : List LocalPair → Option LocalPair
  | [] => none
  | x :: xs =>
    match firstMax xs with
    | none => some x
    | some m => if m.metadata.version ≤ x.metadata.version then some x else some m

/-! ### `remote.py`

The per-channel cache file, the wall clock, the `context.offline` flag and
the network response are the explicit state `get_remote_metadata` reads;
the function reports its result together with whether the network layer
was invoked and the cache file state after the call. -/

/-- `cache_timeout : int | float | None`.  `none'` is Python `None`;
`finite 0` and `none'` are the falsy values that disable the cache;
`infinite` is `float("inf")`. -/
inductive CacheTimeout where
  | none'
  | finite (t : Int)
  | infinite
deriving DecidableEq

/-- Python truthiness of the `cache_timeout` argument
(`if not cache_timeout`). -/
def CacheTimeout.isFalsy : CacheTimeout → Bool
  | .none' => true
  | .finite t => t == 0
  | .infinite => false

/-- Stripped content of a cache file: the empty negative-cache sentinel, a
schema-valid payload, a non-empty unparsable payload, or a permission
failure on read. -/
inductive CacheContent where
  | empty
  | valid (m : RemoteToSMetadata)
  | invalid
  | denied
deriving DecidableEq

/-- A cache file: its modification time and its content. -/
structure CacheFile where
  mtime : Int
  content : CacheContent
deriving DecidableEq

/-- What `get_endpoint`'s network call would produce: a parsed payload, a
`RequestException` (no endpoint / HTTP error / timeout), the
`RuntimeError("... offline mode ...")` from the session in offline mode,
or a 2xx response whose body fails JSON parsing or schema validation. -/
inductive NetworkResult where
  | ok (m : RemoteToSMetadata)
  | missing
  | offlineErr
  | invalidJson
deriving DecidableEq

/-- The explicit state read by `get_remote_metadata`. -/
structure RemoteEnv where
  cache : Option CacheFile
  now : Int
  offline : Bool
  network : NetworkResult
deriving DecidableEq

/-- `remote.get_cached_endpoint`: `None` when caching is disabled (falsy
timeout), the cache file does not exist, or `(now - mtime) >= cache_timeout`
(never satisfied by an infinite timeout); otherwise the cache file.  The
`TypeError` for non-numeric timeouts is foreclosed by `CacheTimeout`. -/
def get_cached_endpoint (cache : Option CacheFile) (now : Int)
    (cache_timeout : CacheTimeout) : Option CacheFile :=
  if cache_timeout.isFalsy then none
  else
    match cache with
    | none => none
    | some c =>
      match cache_timeout with
      | .none' => none
      | .infinite => some c
      | .finite t => if now - c.mtime ≥ t then none else some c

/-- `remote.write_cached_endpoint`: with metadata, serialize it to the
cache file; with `None`, `path.touch()` — which creates an empty file only
when none exists and otherwise merely updates the modification time,
leaving the existing content in place. -/
def write_cached_endpoint (prev : Option CacheFile) (now : Int)
    (metadata : Option RemoteToSMetadata) : CacheFile :=
  match metadata with
  | some m => { mtime := now, content := .valid m }
  | none =>
    match prev with
    | some c => { mtime := now, content := c.content }
    | none => { mtime := now, content := .empty }

instance {ε α : Type} [DecidableEq ε] [DecidableEq α] :
    DecidableEq (Except ε α) := fun a b =>
  match a, b with
  | .ok x, .ok y =>
    if h : x = y then .isTrue (by rw [h]) else .isFalse (by simp [h])
  | .error x, .error y =>
    if h : x = y then .isTrue (by rw [h]) else .isFalse (by simp [h])
  | .ok _, .error _ => .isFalse (by simp)
  | .error _, .ok _ => .isFalse (by simp)

/-- Result of `remote.get_remote_metadata`: the returned metadata or
raised exception, whether the network layer was reached, and the cache
file after the call. -/
structure FetchResult where
  result : Except ToSError RemoteToSMetadata
  networkCalled : Bool
  cacheAfter : Option CacheFile
deriving DecidableEq

/-- `remote.get_remote_metadata`: consult `get_cached_endpoint` with the
timeout forced to infinity in offline mode; a fresh cache is read in place
of any network call (empty content re-raises `CondaToSMissingError` before
any JSON parsing, unparsable content raises `CondaToSInvalidError`);
otherwise call the endpoint and on success write the payload to the cache,
on a definitive no-ToS outcome (`RequestException` or the offline
`RuntimeError`) touch the cache as a negative sentinel and raise
`CondaToSMissingError`, and on an unparsable response touch the cache and
raise `CondaToSInvalidError`.  `url` is the channel's base URL (callers
reach this function only with concrete channels). -/
def get_remote_metadata (url : String) (env : RemoteEnv)
    (cache_timeout : CacheTimeout) : FetchResult :=
  let eff := if env.offline then CacheTimeout.infinite else cache_timeout
  match get_cached_endpoint env.cache env.now eff with
  | some c =>
    match c.content with
    | .empty =>
      { result := .error (.missing ("No Terms of Service for " ++ url ++ ".")),
        networkCalled := false, cacheAfter := env.cache }
    | .denied =>
      { result := .error (.permission ("Unable to read cache path for " ++ url ++ ".")),
        networkCalled := false, cacheAfter := env.cache }
    | .invalid =>
      { result := .error (.invalid ("Invalid Terms of Service for " ++ url ++ ".")),
        networkCalled := false, cacheAfter := env.cache }
    | .valid m =>
      { result := .ok m, networkCalled := false, cacheAfter := env.cache }
  | none =>
    match env.network with
    | .ok m =>
      { result := .ok m, networkCalled := true,
        cacheAfter := some (write_cached_endpoint env.cache env.now (some m)) }
    | .missing =>
      { result := .error (.missing ("No Terms of Service for " ++ url ++ ".")),
        networkCalled := true,
        cacheAfter := some (write_cached_endpoint env.cache env.now none) }
    | .offlineErr =>
      { result := .error (.missing ("No Terms of Service for " ++ url ++ ".")),
        networkCalled := true,
        cacheAfter := some (write_cached_endpoint env.cache env.now none) }
    | .invalidJson =>
      { result := .error (.invalid ("Invalid Terms of Service for " ++ url ++ ".")),
        networkCalled := true,
        cacheAfter := some (write_cached_endpoint env.cache env.now none) }

/-- Result of `remote.get_endpoint` in isolation (the HTTP response body
is abstracted away; only C10's no-base-URL path inspects this function). -/
structure EndpointResult where
  result : Except ToSError Unit
  networkCalled : Bool
deriving DecidableEq

/-- `remote.get_endpoint`: raises `ValueError` before any network request
when the channel has no base URL; otherwise performs the request
(translating `RequestException` into `CondaToSMissingError`; the offline
`RuntimeError` and body parsing are handled by `get_remote_metadata`). -/
def get_endpoint (channel : Channel) (network : NetworkResult) : EndpointResult :=
  match channel.base_url with
  | none =>
    { result := .error (.valueError
        "channel must have a base URL. (hint: MultiChannel has no endpoint)"),
      networkCalled := false }
  | some _ =>
    match network with
    | .ok _ => { result := .ok (), networkCalled := true }
    | _ =>
      { result := .error (.missing "No Terms of Service for channel."),
        networkCalled := true }

/-! ### `api.py` accept/reject -/

/-- `pair.remote or pair.metadata` as passed to `write_metadata` by
`accept_tos`/`reject_tos`: the reconciled pair's remote metadata when
present, otherwise its own metadata. -/
def ToSPair.latestMetadata : ToSPair → MetadataArg
  | .localP lp =>
    match lp.remote with
    | some r => .remoteM r
    | none => .localM lp.metadata
  | .remoteP rp => .remoteM rp.metadata

/-- `api.accept_tos`: reconcile, then persist the latest available
metadata with `tos_accepted=True`.  The reconciliation sub-results are
passed explicitly, as in `get_one_tos`. -/
def accept_tos (remoteResult : Except ToSError RemoteToSMetadata)
    (localResult : Except ToSError LocalPair) (tos_root : Nat)
    (channel : Channel) (now : Int) (rootFiles : List RecordFile) :
    Except ToSError (LocalPair × List RecordFile) :=
  match get_one_tos remoteResult localResult with
  | .error e => .error e
  | .ok pair => write_metadata tos_root channel pair.latestMetadata true now rootFiles

/-- `api.reject_tos`: reconcile, then persist the latest available
metadata with `tos_accepted=False`. -/
def reject_tos (remoteResult : Except ToSError RemoteToSMetadata)
    (localResult : Except ToSError LocalPair) (tos_root : Nat)
    (channel : Channel) (now : Int) (rootFiles : List RecordFile) :
    Except ToSError (LocalPair × List RecordFile) :=
  match get_one_tos remoteResult localResult with
  | .error e => .error e
  | .ok pair => write_metadata tos_root channel pair.latestMetadata false now rootFiles

/-! ### `console/render.py`

The environment flags read by the workflow (`auto_accept_tos`,
`always_yes`, `json` mode, the module-level `CI` and `JUPYTER` detection
results, and `conda.common.io.IS_INTERACTIVE`) are collected into an
explicit context.  The interactive prompt's eventual answer is an oracle
`Channel → Bool` (the `view` branch of `_prompt_acceptance` loops back
into the same prompt until `accept` or `reject` is chosen).  Terminal
side effects relevant to the claims — prompting, the auto-accept/CI
acknowledgment messages, and persisted decisions — are recorded as an
effect trace. -/

/-- Environment flags consumed by `_is_tos_accepted` and
`render_interactive`. -/
structure RenderCtx where
  auto_accept_tos : Bool
  ci : Bool
  jupyter : Bool
  json_mode : Bool
  always_yes : Bool
  is_interactive : Bool
deriving DecidableEq

/-- Observable side effects of the workflow. -/
inductive Effect where
  | autoAcceptMsg (channel : Channel)
  | ciMsg (channel : Channel)
  | prompt (channel : Channel)
  | write (channel : Channel) (accepted : Bool)
deriving DecidableEq

/-- `render._is_tos_accepted`: auto-accept first, then CI, then the
non-interactive guard (json mode, forced yes, Jupyter, or a
non-interactive terminal) which raises `CondaToSNonInteractiveError`
(modelled as `.error ()`), and only then the interactive prompt. -/
def _is_tos_accepted (ctx : RenderCtx) (channel : Channel) (answer : Bool) :
    Except Unit Bool × List Effect :=
  if ctx.auto_accept_tos then (.ok true, [.autoAcceptMsg channel])
  else if ctx.ci then (.ok true, [.ciMsg channel])
  else if ctx.json_mode || ctx.always_yes || ctx.jupyter || !ctx.is_interactive then
    (.error (), [])
  else (.ok answer, [.prompt channel])

/-- Result of `render._gather_tos`: the accepted map (its keys; the dumped
metadata values are not inspected by any claim), the rejected channels,
and the pending `(channel, pair)` list. -/
structure GatherOut where
  accepted : List String
  rejected : List Channel
  channel_pairs : List (Channel × ToSPair)
deriving DecidableEq

/-- `render._gather_tos`: reconcile each channel (the `get_one_tos`
outcome per channel is an input), skipping channels with no metadata at
all (`CondaToSMissingError`), and classify: outdated (`pair.remote` set)
or undecided (no `tos_accepted` attribute) channels are pending, the rest
go to the accepted map or the rejected list by their recorded decision.
Non-missing exceptions propagate. -/
def _gather_tos : List (Channel × Except ToSError ToSPair) →
    Except ToSError GatherOut
  | [] => .ok { accepted := [], rejected := [], channel_pairs := [] }
  | (ch, res) :: rest =>
    match res with
    | .error e => if e.isMissing then _gather_tos rest else .error e
    | .ok pair =>
      match _gather_tos rest with
      | .error e => .error e
      | .ok out =>
        if pair.remote.isSome || pair.accepted? = none then
          .ok { out with channel_pairs := (ch, pair) :: out.channel_pairs }
        else if pair.accepted? = some true then
          .ok { out with accepted := (ch.base_url.getD "") :: out.accepted }
        else
          .ok { out with rejected := ch :: out.rejected }

/-- `render._process_channel_pairs`: resolve each pending pair in order;
an accepted answer persists via `accept_tos` and records the channel in
the accepted map, a rejection persists via `reject_tos` and records the
channel as rejected, and `CondaToSNonInteractiveError` is caught and the
channel deferred.  The persisted write is recorded as an effect (the
`accept_tos`/`reject_tos` re-reconciliation is not re-modelled here; no
claim inspects the written payload of this path). -/
def _process_channel_pairs (ctx : RenderCtx) (answer : Channel → Bool)
    (accepted : List String) (rejected : List Channel)
    (non_interactive : List Channel) :
    List (Channel × ToSPair) →
    List String × List Channel × List Channel × List Effect
  | [] => (accepted, rejected, non_interactive, [])
  | (ch, _pair) :: rest =>
    match _is_tos_accepted ctx ch (answer ch) with
    | (.ok true, eff) =>
      let (a, r, n, w) := _process_channel_pairs ctx answer
        (accepted ++ [ch.base_url.getD ""]) rejected non_interactive rest
      (a, r, n, eff ++ [.write ch true] ++ w)
    | (.ok false, eff) =>
      let (a, r, n, w) := _process_channel_pairs ctx answer
        accepted (rejected ++ [ch]) non_interactive rest
      (a, r, n, eff ++ [.write ch false] ++ w)
    | (.error _, eff) =>
      let (a, r, n, w) := _process_channel_pairs ctx answer
        accepted rejected (non_interactive ++ [ch]) rest
      (a, r, n, eff ++ w)

/-- The fatal outcomes of `render_interactive`. -/
inductive RenderError where
  | rejectedError (channels : List Channel)
  | nonInteractiveError (channels : List Channel)
  | tosError (e : ToSError)
deriving DecidableEq

/-- `render.render_interactive`: gather all channels; if any are already
rejected, raise `CondaToSRejectedError` with them before processing any
pending channel; otherwise process the pending pairs and raise
`CondaToSNonInteractiveError` with all deferred channels, else
`CondaToSRejectedError` with all newly rejected channels, else return the
accepted map.  The second component is the trace of effects that occurred
before the function returned or raised. -/
def render_interactive (items : List (Channel × Except ToSError ToSPair))
    (ctx : RenderCtx) (answer : Channel → Bool) :
    Except RenderError (List String) × List Effect :=
  match _gather_tos items with
  | .error e => (.error (.tosError e), [])
  | .ok out =>
    if !out.rejected.isEmpty then (.error (.rejectedError out.rejected), [])
    else
      let (a, r, n, w) := _process_channel_pairs ctx answer
        out.accepted out.rejected [] out.channel_pairs
      if !n.isEmpty then (.error (.nonInteractiveError n), w)
      else if !r.isEmpty then (.error (.rejectedError r), w)
      else (.ok a, w)

/-! ### Helper lemmas: `lastOpt`, insertion sort, `lastMax`/`firstMax` -/

theorem lastOpt_cons_cons {α : Type} (a b : α) (t : List α) :
    lastOpt (a :: b :: t) = lastOpt (b :: t) := rfl

theorem lastOpt_cons_isSome {α : Type} :
    ∀ (a : α) (l : List α), (lastOpt (a :: l)).isSome = true
  | _, [] => rfl
  | _, b :: t => lastOpt_cons_isSome b t

theorem lastOpt_mem {α : Type} :
    ∀ {l : List α} {m : α}, lastOpt l = some m → m ∈ l
  | [], _, h => by simp [lastOpt] at h
  | [a], m, h => by
    simp [lastOpt] at h
    simp [h]
  | _ :: b :: t, _, h => by
    rw [lastOpt_cons_cons] at h
    exact List.mem_cons_of_mem _ (lastOpt_mem h)

theorem lastOpt_cons_of_ne_nil {α : Type} (a : α) {l : List α} (h : l ≠ []) :
    lastOpt (a :: l) = lastOpt l := by
  cases l with
  | nil => exact absurd rfl h
  | cons b t => rfl

theorem orderedInsert_ne_nil (x : LocalPair) (s : List LocalPair) :
    List.orderedInsert pairLE x s ≠ [] := by
  cases s with
  | nil => simp [List.orderedInsert]
  | cons b t =>
    rw [List.orderedInsert]
    split <;> simp

theorem lastOpt_orderedInsert :
    ∀ (s : List LocalPair), s.Sorted pairLE → ∀ (x : LocalPair),
    lastOpt (List.orderedInsert pairLE x s) =
      some ((lastOpt s).elim x (fun m =>
        if x.metadata.version ≤ m.metadata.version then m else x))
  | [], _, x => by simp [List.orderedInsert, lastOpt]
  | b :: t, hs, x => by
    rw [List.orderedInsert]
    by_cases hxb : pairLE x b
    · rw [if_pos hxb, lastOpt_cons_cons]
      obtain ⟨m, hm⟩ := Option.isSome_iff_exists.mp (lastOpt_cons_isSome b t)
      rw [hm]
      have hbm : b.metadata.version ≤ m.metadata.version := by
        rcases List.mem_cons.mp (lastOpt_mem hm) with h | h
        · rw [h]
        · exact (List.rel_of_sorted_cons hs m h : pairLE b m)
      have hxm : x.metadata.version ≤ m.metadata.version := le_trans hxb hbm
      simp [hxm]
    · rw [if_neg hxb, lastOpt_cons_of_ne_nil b (orderedInsert_ne_nil x t),
        lastOpt_orderedInsert t hs.of_cons x]
      cases ht : lastOpt t with
      | none =>
        have : t = [] := by
          cases t with
          | nil => rfl
          | cons c u =>
            have := lastOpt_cons_isSome c u
            rw [ht] at this
            simp at this
        subst this
        have hxb' : ¬ x.metadata.version ≤ b.metadata.version := hxb
        simp [lastOpt, hxb']
      | some m =>
        have hbt : t ≠ [] := by
          intro hnil
          rw [hnil] at ht
          simp [lastOpt] at ht
        rw [lastOpt_cons_of_ne_nil b hbt, ht]

theorem lastOpt_insertionSort :
    ∀ (l : List LocalPair), lastOpt (List.insertionSort pairLE l) = lastMax l
  | [] => rfl
  | x :: xs => by
    rw [List.insertionSort,
      lastOpt_orderedInsert _ (List.sorted_insertionSort pairLE xs) x,
      lastOpt_insertionSort xs]
    cases h : lastMax xs with
    | none => simp [lastMax, h]
    | some m =>
      by_cases hxm : x.metadata.version ≤ m.metadata.version <;>
        simp [lastMax, h, hxm]

theorem lastMax_append_singleton :
    ∀ (l : List LocalPair) (x : LocalPair),
    lastMax (l ++ [x]) =
      some ((lastMax l).elim x (fun m =>
        if m.metadata.version ≤ x.metadata.version then x else m))
  | [], x => by simp [lastMax]
  | b :: t, x => by
    have ih := lastMax_append_singleton t x
    cases h : lastMax t with
    | none =>
      rw [h] at ih
      simp only [Option.elim_none] at ih
      simp only [List.cons_append, lastMax, h, List.append_eq,
        Option.elim_none, Option.elim_some]
      rw [ih]
      by_cases hbx : b.metadata.version ≤ x.metadata.version <;> simp [hbx]
    | some m =>
      rw [h] at ih
      simp only [Option.elim_some] at ih
      simp only [List.cons_append, lastMax, h, List.append_eq, Option.elim_some]
      rw [ih]
      by_cases hbm : b.metadata.version ≤ m.metadata.version <;>
        by_cases hmx : m.metadata.version ≤ x.metadata.version <;>
        by_cases hbx : b.metadata.version ≤ x.metadata.version <;>
        simp [hbm, hmx, hbx] <;>
        (exfalso; omega)

theorem lastMax_reverse :
    ∀ (l : List LocalPair), lastMax l.reverse = firstMax l
  | [] => rfl
  | x :: xs => by
    rw [List.reverse_cons, lastMax_append_singleton, lastMax_reverse xs]
    cases h : firstMax xs with
    | none => simp [firstMax, h]
    | some m =>
      by_cases hmx : m.metadata.version ≤ x.metadata.version <;>
        simp [firstMax, h, hmx]

theorem firstMax_cons_ne_none (x : LocalPair) (xs : List LocalPair) :
    firstMax (x :: xs) ≠ none := by
  cases h : firstMax xs with
  | none => simp [firstMax, h]
  | some m =>
    by_cases hmx : m.metadata.version ≤ x.metadata.version <;>
      simp [firstMax, h, hmx]

theorem firstMax_mem :
    ∀ {l : List LocalPair} {m : LocalPair}, firstMax l = some m → m ∈ l
  | [], _, h => by simp [firstMax] at h
  | x :: xs, m, h => by
    cases h' : firstMax xs with
    | none =>
      simp [firstMax, h'] at h
      simp [h]
    | some k =>
      by_cases hkx : k.metadata.version ≤ x.metadata.version
      · simp [firstMax, h', hkx] at h
        simp [h]
      · simp [firstMax, h', hkx] at h
        exact List.mem_cons_of_mem x (firstMax_mem (h ▸ h'))

theorem firstMax_version_le :
    ∀ {l : List LocalPair} {m : LocalPair}, firstMax l = some m →
      ∀ q ∈ l, q.metadata.version ≤ m.metadata.version
  | [], _, _, q, hq => by simp at hq
  | x :: xs, m, h, q, hq => by
    rcases List.mem_cons.mp hq with heq | hq'
    · cases h' : firstMax xs with
      | none =>
        simp only [firstMax, h'] at h
        have hxm : x = m := Option.some.inj h
        rw [heq, ← hxm]
      | some k =>
        simp only [firstMax, h'] at h
        by_cases hkx : k.metadata.version ≤ x.metadata.version
        · rw [if_pos hkx] at h
          have hxm : x = m := Option.some.inj h
          rw [heq, ← hxm]
        · rw [if_neg hkx] at h
          have hkm : k = m := Option.some.inj h
          rw [heq]
          rw [hkm] at hkx
          omega
    · cases h' : firstMax xs with
      | none =>
        cases xs with
        | nil => simp at hq'
        | cons c u => exact absurd h' (firstMax_cons_ne_none c u)
      | some k =>
        have hqk : q.metadata.version ≤ k.metadata.version :=
          firstMax_version_le h' q hq'
        simp only [firstMax, h'] at h
        by_cases hkx : k.metadata.version ≤ x.metadata.version
        · rw [if_pos hkx] at h
          have hxm : x = m := Option.some.inj h
          rw [← hxm]
          omega
        · rw [if_neg hkx] at h
          have hkm : k = m := Option.some.inj h
          rw [← hkm]
          exact hqk

theorem firstMax_append_dominant :
    ∀ (l : List LocalPair) (p : LocalPair),
    (∀ q ∈ l, q.metadata.version < p.metadata.version) →
    firstMax (l ++ [p]) = some p
  | [], p, _ => by simp [firstMax]
  | x :: xs, p, h => by
    have ih := firstMax_append_dominant xs p
      (fun q hq => h q (List.mem_cons_of_mem x hq))
    have hx : x.metadata.version < p.metadata.version :=
      h x (List.mem_cons_self x xs)
    simp only [List.cons_append, firstMax, List.append_eq, ih]
    rw [if_neg (by omega)]

/-! ### Helper lemmas: the local read and the record files -/

theorem get_local_metadata_spec (sp : List (List RecordFile)) (ps : List LocalPair)
    (h : parsePairs sp.flatten = .ok ps) :
    get_local_metadata sp =
      (match firstMax ps with
       | none => .error (.missing msgNoLocal)
       | some p => .ok p) := by
  rw [get_local_metadata, h]
  cases ps with
  | nil => simp [firstMax]
  | cons x xs =>
    simp only [List.isEmpty_cons, if_false, Bool.false_eq_true]
    rw [lastOpt_insertionSort, lastMax_reverse]
    cases hf : firstMax (x :: xs) with
    | none => exact absurd hf (firstMax_cons_ne_none x xs)
    | some p => simp

theorem parsePairs_eq_validPairs :
    ∀ (l : List RecordFile), noDenied l → parsePairs l = .ok (validPairs l)
  | [], _ => rfl
  | f :: rest, h => by
    have hf : f.content ≠ .denied := h f (List.mem_cons_self f rest)
    have ih := parsePairs_eq_validPairs rest
      (fun g hg => h g (List.mem_cons_of_mem f hg))
    cases hc : f.content with
    | valid m => simp [parsePairs, read_metadata, hc, ih, validPairs]
    | corrupt => simp [parsePairs, read_metadata, hc, ih, validPairs]
    | denied => exact absurd hc hf

theorem parsePairs_remote_none :
    ∀ {l : List RecordFile} {ps : List LocalPair}, parsePairs l = .ok ps →
      ∀ p ∈ ps, p.remote = none
  | [], ps, h, p, hp => by
    simp [parsePairs] at h
    subst h
    simp at hp
  | f :: rest, ps, h, p, hp => by
    cases hc : f.content with
    | valid m =>
      rw [parsePairs, read_metadata, hc] at h
      cases hr : parsePairs rest with
      | error e => rw [hr] at h; exact absurd h (by simp)
      | ok qs =>
        rw [hr] at h
        simp at h
        subst h
        rcases List.mem_cons.mp hp with rfl | hp'
        · rfl
        · exact parsePairs_remote_none hr p hp'
    | corrupt =>
      rw [parsePairs, read_metadata, hc] at h
      cases hr : parsePairs rest with
      | error e => rw [hr] at h; exact absurd h (by simp)
      | ok qs =>
        rw [hr] at h
        simp at h
        subst h
        exact parsePairs_remote_none hr p hp
    | denied =>
      rw [parsePairs, read_metadata, hc] at h
      exact absurd h (by simp)

theorem get_local_remote_none {sp : List (List RecordFile)} {p : LocalPair}
    (h : get_local_metadata sp = .ok p) : p.remote = none := by
  cases hp : parsePairs sp.flatten with
  | error e =>
    rw [get_local_metadata, hp] at h
    exact absurd h (by simp)
  | ok ps =>
    have hs := get_local_metadata_spec sp ps hp
    rw [hs] at h
    cases hf : firstMax ps with
    | none =>
      rw [hf] at h
      exact absurd h (by simp)
    | some q =>
      rw [hf] at h
      have : q = p := by injection h
      subst this
      exact parsePairs_remote_none hp q (firstMax_mem hf)

/-! ### Helper lemma: the non-interactive processing pass -/

theorem process_noninteractive (ctx : RenderCtx) (answer : Channel → Bool)
    (hauto : ctx.auto_accept_tos = false) (hci : ctx.ci = false)
    (hni : (ctx.json_mode || ctx.always_yes || ctx.jupyter || !ctx.is_interactive) = true) :
    ∀ (pairs : List (Channel × ToSPair)) (a : List String) (r n : List Channel),
    _process_channel_pairs ctx answer a r n pairs =
      (a, r, n ++ pairs.map Prod.fst, [])
  | [], a, r, n => by simp [_process_channel_pairs]
  | (ch, pair) :: rest, a, r, n => by
    have ih := process_noninteractive ctx answer hauto hci hni rest a r (n ++ [ch])
    simp only [_process_channel_pairs, _is_tos_accepted, hauto, hci, hni,
      Bool.false_eq_true, if_false, if_true, ih]
    simp

/-! ### Claim theorems -/

/-- C1: for a channel with both a local acceptance record and fetched
remote metadata, `get_one_tos` returns, when the remote version is
strictly greater than the local version, a `LocalPair` that preserves the
local metadata, its path and the old decision and carries the remote
metadata in its `remote` field; when the local version is greater than or
equal (ties included), the unchanged local pair — and every pair produced
by `get_local_metadata` has no `remote` field set, so that unchanged pair
carries no remote metadata. -/
theorem c1_version_merge :
    (∀ (lp : LocalPair) (rm : RemoteToSMetadata),
      get_one_tos (.ok rm) (.ok lp) =
        .ok (.localP (if lp.metadata.version < rm.version then
          { metadata := lp.metadata, path := lp.path, remote := some rm }
          else lp))) ∧
    (∀ (sp : List (List RecordFile)) (lp : LocalPair),
      get_local_metadata sp = .ok lp → lp.remote = none) := by
  constructor
  · intro lp rm
    by_cases h : rm.version ≤ lp.metadata.version
    · simp [get_one_tos, h, not_lt.mpr h]
    · simp [get_one_tos, h, lt_of_not_le h]
  · intro sp lp h
    exact get_local_remote_none h

/-- Witness for C1: concrete outdated reconciliation, plus the
`remote = none` fact for a pair read back from one stored record. -/
theorem c1_version_merge_witness :
    get_one_tos (.ok (⟨2, "t2", "s"⟩ : RemoteToSMetadata))
        (.ok (⟨⟨1, "t1", "s", "u", true, 10⟩, ⟨0, 1⟩, none⟩ : LocalPair)) =
      .ok (.localP ⟨⟨1, "t1", "s", "u", true, 10⟩, ⟨0, 1⟩, some ⟨2, "t2", "s"⟩⟩) ∧
    (⟨⟨1, "t1", "s", "u", true, 10⟩, ⟨0, 1⟩, none⟩ : LocalPair).remote = none := by
  constructor
  · rw [c1_version_merge.1 ⟨⟨1, "t1", "s", "u", true, 10⟩, ⟨0, 1⟩, none⟩ ⟨2, "t2", "s"⟩]
    decide
  · exact c1_version_merge.2 [[⟨⟨0, 1⟩, .valid ⟨1, "t1", "s", "u", true, 10⟩⟩]]
      ⟨⟨1, "t1", "s", "u", true, 10⟩, ⟨0, 1⟩, none⟩ (by decide)

/-- C2: if the gathering pass finds any channel whose current,
non-outdated local record is a rejection, `render_interactive` raises
`CondaToSRejectedError` listing all such channels before any pending
channel is prompted, auto-accepted or written: the effect trace is
empty. -/
theorem c2_rejected_fail_fast (items : List (Channel × Except ToSError ToSPair))
    (ctx : RenderCtx) (answer : Channel → Bool) (out : GatherOut)
    (h : _gather_tos items = .ok out) (hrej : out.rejected ≠ []) :
    render_interactive items ctx answer =
      (.error (.rejectedError out.rejected), []) := by
  have hfalse : out.rejected.isEmpty = false := by
    cases hrr : out.rejected with
    | nil => exact absurd hrr hrej
    | cons a l => rfl
  simp [render_interactive, h, hfalse]

/-- Witness for C2: one already-rejected channel aborts the batch with no
effects. -/
theorem c2_rejected_fail_fast_witness :
    render_interactive
        [(⟨some "r", "l", "n"⟩,
          .ok (.localP ⟨⟨1, "t", "s", "r", false, 5⟩, ⟨0, 1⟩, none⟩)),
         (⟨some "p", "l2", "n2"⟩, .ok (.remoteP ⟨⟨3, "t3", "s"⟩⟩))]
        ⟨false, false, false, false, false, true⟩ (fun _ => true) =
      (.error (.rejectedError [⟨some "r", "l", "n"⟩]), []) :=
  c2_rejected_fail_fast _ _ _
    ⟨[], [⟨some "r", "l", "n"⟩],
     [(⟨some "p", "l2", "n2"⟩, .remoteP ⟨⟨3, "t3", "s"⟩⟩)]⟩
    (by decide) (by decide)

/-- C3: in a non-interactive context (json mode, forced yes, Jupyter, or
a non-interactive terminal) with neither auto-accept nor CI set, every
pending channel is deferred, `render_interactive` raises
`CondaToSNonInteractiveError` naming every pending channel, and no write
(or any other effect) occurs. -/
theorem c3_noninteractive_defers (items : List (Channel × Except ToSError ToSPair))
    (ctx : RenderCtx) (answer : Channel → Bool) (out : GatherOut)
    (h : _gather_tos items = .ok out) (hrej : out.rejected = [])
    (hne : out.channel_pairs ≠ [])
    (hauto : ctx.auto_accept_tos = false) (hci : ctx.ci = false)
    (hni : (ctx.json_mode || ctx.always_yes || ctx.jupyter || !ctx.is_interactive) = true) :
    render_interactive items ctx answer =
      (.error (.nonInteractiveError (out.channel_pairs.map Prod.fst)), []) := by
  have hmapne : out.channel_pairs.map Prod.fst ≠ [] := by
    intro hmap
    exact hne (List.map_eq_nil_iff.mp hmap)
  have hmapfalse : (out.channel_pairs.map Prod.fst).isEmpty = false := by
    cases hm : out.channel_pairs.map Prod.fst with
    | nil => exact absurd hm hmapne
    | cons a l => rfl
  simp only [render_interactive, h, hrej, List.isEmpty_nil, Bool.not_true,
    Bool.false_eq_true, if_false,
    process_noninteractive ctx answer hauto hci hni out.channel_pairs out.accepted [] []]
  simp [hmapfalse]

/-- Witness for C3: one pending channel in json mode is deferred with no
effects. -/
theorem c3_noninteractive_defers_witness :
    render_interactive [(⟨some "p", "l", "n"⟩, .ok (.remoteP ⟨⟨3, "t3", "s"⟩⟩))]
        ⟨false, false, false, true, false, true⟩ (fun _ => true) =
      (.error (.nonInteractiveError [⟨some "p", "l", "n"⟩]), []) :=
  c3_noninteractive_defers _ _ _
    ⟨[], [], [(⟨some "p", "l", "n"⟩, .remoteP ⟨⟨3, "t3", "s"⟩⟩)]⟩
    (by decide) (by decide) (by decide) (by decide) (by decide) (by decide)

/-- C4: the local read returns the record with the maximal version among
all parseable records of every root combined — `firstMax`, which is
priority-independent except that among records of equal (maximal) version
the first one in search-path order, i.e. the one from the highest-priority
root, wins; in particular a strictly newer record in a lower-priority
root beats an older record in a higher-priority root. -/
theorem c4_local_read_newest_wins (sp : List (List RecordFile)) (ps : List LocalPair)
    (h : parsePairs sp.flatten = .ok ps) :
    get_local_metadata sp =
      (match firstMax ps with
       | none => .error (.missing msgNoLocal)
       | some p => .ok p) ∧
    (∀ p, firstMax ps = some p →
      p ∈ ps ∧ ∀ q ∈ ps, q.metadata.version ≤ p.metadata.version) := by
  refine ⟨get_local_metadata_spec sp ps h, fun p hp => ⟨firstMax_mem hp, firstMax_version_le hp⟩⟩

/-- Witness for C4: a strictly newer record in the lower-priority root
wins over the higher-priority root's older record. -/
theorem c4_local_read_newest_wins_witness :
    parsePairs ([[⟨⟨0, 1⟩, FileContent.valid ⟨1, "a", "s", "u", true, 1⟩⟩],
        [⟨⟨1, 9⟩, FileContent.valid ⟨9, "b", "s", "u", false, 2⟩⟩]] :
        List (List RecordFile)).flatten =
      .ok [⟨⟨1, "a", "s", "u", true, 1⟩, ⟨0, 1⟩, none⟩,
           ⟨⟨9, "b", "s", "u", false, 2⟩, ⟨1, 9⟩, none⟩] ∧
    get_local_metadata
        [[⟨⟨0, 1⟩, FileContent.valid ⟨1, "a", "s", "u", true, 1⟩⟩],
         [⟨⟨1, 9⟩, FileContent.valid ⟨9, "b", "s", "u", false, 2⟩⟩]] =
      .ok ⟨⟨9, "b", "s", "u", false, 2⟩, ⟨1, 9⟩, none⟩ := by
  refine ⟨by decide, ?_⟩
  rw [(c4_local_read_newest_wins
    [[⟨⟨0, 1⟩, FileContent.valid ⟨1, "a", "s", "u", true, 1⟩⟩],
     [⟨⟨1, 9⟩, FileContent.valid ⟨9, "b", "s", "u", false, 2⟩⟩]]
    [⟨⟨1, "a", "s", "u", true, 1⟩, ⟨0, 1⟩, none⟩,
     ⟨⟨9, "b", "s", "u", false, 2⟩, ⟨1, 9⟩, none⟩] (by decide)).1]
  decide

/-- C5: `get_remote_metadata` reads the per-channel cache file instead of
reaching the network layer exactly when the cache file exists and is
fresh under the effective timeout — infinite (never expiring, and forced
whenever offline mode is active), or a nonzero finite `t` with
`now - mtime < t`; a zero or falsy timeout (when not offline) disables
the cache. -/
theorem c5_cache_freshness (url : String) (env : RemoteEnv) (ct : CacheTimeout) :
    (get_remote_metadata url env ct).networkCalled = false ↔
      ∃ c, env.cache = some c ∧
        ((if env.offline then CacheTimeout.infinite else ct) = CacheTimeout.infinite ∨
         ∃ t, (if env.offline then CacheTimeout.infinite else ct) = CacheTimeout.finite t ∧
           t ≠ 0 ∧ env.now - c.mtime < t) := by
  have hnet : (get_remote_metadata url env ct).networkCalled = false ↔
      (get_cached_endpoint env.cache env.now
        (if env.offline then CacheTimeout.infinite else ct)).isSome = true := by
    cases h : get_cached_endpoint env.cache env.now
        (if env.offline then CacheTimeout.infinite else ct) with
    | some c => cases hcc : c.content <;> simp [get_remote_metadata, h, hcc]
    | none => cases hn : env.network <;> simp [get_remote_metadata, h, hn]
  rw [hnet]
  cases hc : env.cache with
  | none =>
    cases if env.offline then CacheTimeout.infinite else ct <;>
      simp [get_cached_endpoint, CacheTimeout.isFalsy]
  | some c =>
    cases heff : (if env.offline then CacheTimeout.infinite else ct) with
    | none' => simp [get_cached_endpoint, CacheTimeout.isFalsy]
    | infinite => simp [get_cached_endpoint, CacheTimeout.isFalsy]
    | finite t =>
      by_cases ht : t = 0
      · subst ht
        simp [get_cached_endpoint, CacheTimeout.isFalsy]
      · by_cases hfresh : env.now - c.mtime ≥ t
        · simp only [get_cached_endpoint, CacheTimeout.isFalsy]
          rw [if_neg (by simpa using ht), if_pos hfresh]
          simp only [Option.isSome_none, Bool.false_eq_true, false_iff]
          rintro ⟨c2, hc2, hbad | ⟨t2, ht2, _, hlt⟩⟩
          · exact absurd hbad (by simp)
          · injection ht2 with h2
            injection hc2 with h3
            have hm : c2.mtime = c.mtime := by rw [← h3]
            omega
        · simp only [get_cached_endpoint, CacheTimeout.isFalsy]
          rw [if_neg (by simpa using ht), if_neg hfresh]
          simp only [Option.isSome_some, true_iff]
          exact ⟨c, rfl, Or.inr ⟨t, rfl, ht, by omega⟩⟩

/-- C6 counterexample: the claim "an empty cache file is written" is
false when a stale populated cache file already exists — on a definitive
no-ToS outcome `path.touch()` merely refreshes the modification time and
the old (non-empty) content survives.  Concretely: stale cache holding a
valid payload, finite timeout expired, network reports no ToS. -/
theorem c6_counterexample :
    (get_remote_metadata "u"
        ⟨some ⟨0, .valid ⟨1, "t", "s"⟩⟩, 100, false, .missing⟩
        (.finite 10)).result = .error (.missing "No Terms of Service for u.") ∧
    (get_remote_metadata "u"
        ⟨some ⟨0, .valid ⟨1, "t", "s"⟩⟩, 100, false, .missing⟩
        (.finite 10)).cacheAfter = some ⟨100, .valid ⟨1, "t", "s"⟩⟩ ∧
    CacheContent.valid ⟨1, "t", "s"⟩ ≠ CacheContent.empty := by decide

/-- C6 amended: on a definitive no-ToS outcome with no usable cache, the
cache file is touched — its modification time becomes `now`, an empty
file is created only when none existed, and an existing file's content is
preserved — and a `CondaToSMissingError` is raised; conversely, whenever
a fresh cache file is read and its stripped content is empty,
`get_remote_metadata` raises `CondaToSMissingError` immediately, without
any JSON parsing, network call, or cache write. -/
theorem c6_sentinel_amended :
    (∀ (url : String) (env : RemoteEnv) (ct : CacheTimeout),
      (env.network = .missing ∨ env.network = .offlineErr) →
      get_cached_endpoint env.cache env.now
          (if env.offline then CacheTimeout.infinite else ct) = none →
      (get_remote_metadata url env ct).cacheAfter =
          some (write_cached_endpoint env.cache env.now none) ∧
        (write_cached_endpoint env.cache env.now none).mtime = env.now ∧
        (env.cache = none →
          write_cached_endpoint env.cache env.now none =
            { mtime := env.now, content := .empty }) ∧
        (∀ c0, env.cache = some c0 →
          (write_cached_endpoint env.cache env.now none).content = c0.content) ∧
        (get_remote_metadata url env ct).result =
          .error (.missing ("No Terms of Service for " ++ url ++ "."))) ∧
    (∀ (url : String) (env : RemoteEnv) (ct : CacheTimeout) (c : CacheFile),
      get_cached_endpoint env.cache env.now
          (if env.offline then CacheTimeout.infinite else ct) = some c →
      c.content = .empty →
      (get_remote_metadata url env ct).result =
          .error (.missing ("No Terms of Service for " ++ url ++ ".")) ∧
        (get_remote_metadata url env ct).networkCalled = false ∧
        (get_remote_metadata url env ct).cacheAfter = env.cache) := by
  constructor
  · intro url env ct hnet hcm
    rcases hnet with h | h
    · refine ⟨by simp [get_remote_metadata, hcm, h], ?_, ?_, ?_,
        by simp [get_remote_metadata, hcm, h]⟩
      · cases hc : env.cache <;> simp [write_cached_endpoint, hc]
      · intro hc
        simp [write_cached_endpoint, hc]
      · intro c0 hc
        simp [write_cached_endpoint, hc]
    · refine ⟨by simp [get_remote_metadata, hcm, h], ?_, ?_, ?_,
        by simp [get_remote_metadata, hcm, h]⟩
      · cases hc : env.cache <;> simp [write_cached_endpoint, hc]
      · intro hc
        simp [write_cached_endpoint, hc]
      · intro c0 hc
        simp [write_cached_endpoint, hc]
  · intro url env ct c hc he
    refine ⟨?_, ?_, ?_⟩ <;> simp [get_remote_metadata, hc, he]

/-- Witness for C6 amended: a no-ToS outcome with no cache file creates
the empty sentinel, and reading a fresh empty sentinel raises
`CondaToSMissingError` without reaching the network. -/
theorem c6_sentinel_amended_witness :
    (get_remote_metadata "u" ⟨none, 50, false, .missing⟩ (.finite 10)).cacheAfter =
        some (write_cached_endpoint none 50 none) ∧
    (get_remote_metadata "u" ⟨some ⟨49, .empty⟩, 50, false, .missing⟩
        (.finite 10)).result = .error (.missing "No Terms of Service for u.") ∧
    (get_remote_metadata "u" ⟨some ⟨49, .empty⟩, 50, false, .missing⟩
        (.finite 10)).networkCalled = false := by
  refine ⟨?_, ?_, ?_⟩
  · exact (c6_sentinel_amended.1 "u" ⟨none, 50, false, .missing⟩ (.finite 10)
      (Or.inl rfl) (by decide)).1
  · exact (c6_sentinel_amended.2 "u" ⟨some ⟨49, .empty⟩, 50, false, .missing⟩
      (.finite 10) ⟨49, .empty⟩ (by decide) rfl).1
  · exact (c6_sentinel_amended.2 "u" ⟨some ⟨49, .empty⟩, 50, false, .missing⟩
      (.finite 10) ⟨49, .empty⟩ (by decide) rfl).2.1

/-- C7: once reconciliation resolves a pair, `accept_tos` and
`reject_tos` persist the latest available metadata — the pair's remote
metadata when present, otherwise its own metadata — via `write_metadata`,
with `tos_accepted` `true` for accept and `false` for reject, stamping
the write-time `acceptance_timestamp` and the channel's base URL. -/
theorem c7_persist_latest (rr : Except ToSError RemoteToSMetadata)
    (lr : Except ToSError LocalPair) (tos_root : Nat) (ch : Channel)
    (url : String) (now : Int) (rootFiles : List RecordFile) (pair : ToSPair)
    (h : get_one_tos rr lr = .ok pair) (hurl : ch.base_url = some url) :
    accept_tos rr lr tos_root ch now rootFiles =
        write_metadata tos_root ch pair.latestMetadata true now rootFiles ∧
    reject_tos rr lr tos_root ch now rootFiles =
        write_metadata tos_root ch pair.latestMetadata false now rootFiles ∧
    (∃ p rf, accept_tos rr lr tos_root ch now rootFiles = .ok (p, rf) ∧
      p.metadata.version = pair.latestMetadata.version ∧
      p.metadata.text = pair.latestMetadata.text ∧
      p.metadata.support = pair.latestMetadata.support ∧
      p.metadata.tos_accepted = true ∧
      p.metadata.acceptance_timestamp = now ∧
      p.metadata.base_url = url) ∧
    (∃ p rf, reject_tos rr lr tos_root ch now rootFiles = .ok (p, rf) ∧
      p.metadata.version = pair.latestMetadata.version ∧
      p.metadata.text = pair.latestMetadata.text ∧
      p.metadata.support = pair.latestMetadata.support ∧
      p.metadata.tos_accepted = false ∧
      p.metadata.acceptance_timestamp = now ∧
      p.metadata.base_url = url) := by
  have hacc : accept_tos rr lr tos_root ch now rootFiles =
      write_metadata tos_root ch pair.latestMetadata true now rootFiles := by
    simp [accept_tos, h]
  have hrej : reject_tos rr lr tos_root ch now rootFiles =
      write_metadata tos_root ch pair.latestMetadata false now rootFiles := by
    simp [reject_tos, h]
  refine ⟨hacc, hrej, ?_, ?_⟩
  · rw [hacc]
    simp only [write_metadata, hurl]
    exact ⟨_, _, rfl, rfl, rfl, rfl, rfl, rfl, rfl⟩
  · rw [hrej]
    simp only [write_metadata, hurl]
    exact ⟨_, _, rfl, rfl, rfl, rfl, rfl, rfl, rfl⟩

/-- Witness for C7: an outdated local pair persists the remote (latest)
metadata on accept. -/
theorem c7_persist_latest_witness :
    accept_tos (.ok ⟨2, "t2", "s"⟩)
        (.ok ⟨⟨1, "t1", "s", "u", true, 10⟩, ⟨0, 1⟩, none⟩) 0
        ⟨some "u", "l", "n"⟩ 20 [] =
      write_metadata 0 ⟨some "u", "l", "n"⟩
        (ToSPair.localP ⟨⟨1, "t1", "s", "u", true, 10⟩, ⟨0, 1⟩,
          some ⟨2, "t2", "s"⟩⟩).latestMetadata true 20 [] :=
  (c7_persist_latest (.ok ⟨2, "t2", "s"⟩)
    (.ok ⟨⟨1, "t1", "s", "u", true, 10⟩, ⟨0, 1⟩, none⟩) 0
    ⟨some "u", "l", "n"⟩ "u" 20 []
    (.localP ⟨⟨1, "t1", "s", "u", true, 10⟩, ⟨0, 1⟩, some ⟨2, "t2", "s"⟩⟩)
    (by decide) (by decide)).1

/-- C8: when the remote fetch raised `CondaToSMissingError` and no local
record exists anywhere in the search path, `get_one_tos` re-raises the
remembered remote exception itself (not the local miss). -/
theorem c8_missing_reraised (re : ToSError) (sp : List (List RecordFile))
    (hre : re.isMissing = true) (h : parsePairs sp.flatten = .ok []) :
    get_one_tos (.error re) (get_local_metadata sp) = .error re := by
  have hloc : get_local_metadata sp = .error (.missing msgNoLocal) := by
    rw [get_local_metadata_spec sp [] h]
    rfl
  rw [hloc]
  simp [get_one_tos, hre, ToSError.isMissing]

/-- Witness for C8: empty search path and a missing remote. -/
theorem c8_missing_reraised_witness :
    (ToSError.missing "No Terms of Service for u.").isMissing = true ∧
    parsePairs ([] : List (List RecordFile)).flatten = .ok [] ∧
    get_one_tos (.error (.missing "No Terms of Service for u."))
        (get_local_metadata []) =
      .error (.missing "No Terms of Service for u.") :=
  ⟨rfl, rfl, c8_missing_reraised _ [] rfl rfl⟩

/-- C9 counterexample: the round-trip claim as stated is false — with no
other record strictly newer than the written version, a record of *equal*
version in a higher-priority root still shadows the freshly written
record, so the read returns a different record at a different path.
Root 0 (higher priority) holds version 5 with text "other"; the write of
version 5 with text "mine" goes to root 1 (appended to the search path,
lowest priority); the read returns root 0's record. -/
theorem c9_counterexample :
    write_metadata 1 ⟨some "u", "l", "n"⟩ (.remoteM ⟨5, "mine", "s"⟩) true 2 [] =
      .ok (⟨⟨5, "mine", "s", "u", true, 2⟩, ⟨1, 5⟩, none⟩,
           [⟨⟨1, 5⟩, FileContent.valid ⟨5, "mine", "s", "u", true, 2⟩⟩]) ∧
    get_local_metadata
        [[⟨⟨0, 5⟩, FileContent.valid ⟨5, "other", "s", "u", true, 1⟩⟩],
         [⟨⟨1, 5⟩, FileContent.valid ⟨5, "mine", "s", "u", true, 2⟩⟩]] =
      .ok ⟨⟨5, "other", "s", "u", true, 1⟩, ⟨0, 5⟩, none⟩ ∧
    (⟨⟨5, "other", "s", "u", true, 1⟩, ⟨0, 5⟩, none⟩ : LocalPair) ≠
      ⟨⟨5, "mine", "s", "u", true, 2⟩, ⟨1, 5⟩, none⟩ ∧
    (∀ q ∈ validPairs
        ([[⟨⟨0, 5⟩, FileContent.valid ⟨5, "other", "s", "u", true, 1⟩⟩],
          [⟨⟨1, 5⟩, FileContent.valid ⟨5, "mine", "s", "u", true, 2⟩⟩]] :
          List (List RecordFile)).flatten,
      q.metadata.version ≤ 5) := by decide

/-- C9 amended: after `write_metadata` succeeds, a `get_local_metadata`
over a search path ending in the written root returns the written record
(field-for-field, with the write-time `acceptance_timestamp` and the
channel's base URL) at the written path — provided every *other*
parseable record for the channel, in any root, has a version *strictly
below* the written version (a record of equal version in another root or
file would shadow the written one by the priority tie-break). -/
theorem c9_roundtrip_amended (base : List (List RecordFile))
    (rootFiles : List RecordFile) (tos_root : Nat) (ch : Channel)
    (url : String) (arg : MetadataArg) (b : Bool) (now : Int)
    (hurl : ch.base_url = some url)
    (hbase : noDenied base.flatten)
    (hroot : noDenied rootFiles)
    (hB : ∀ q ∈ validPairs base.flatten, q.metadata.version < arg.version)
    (hR : ∀ f ∈ rootFiles, ∀ m, f.content = FileContent.valid m →
        f.path ≠ get_metadata_path tos_root arg.version →
        m.version < arg.version) :
    ∃ p rf1, write_metadata tos_root ch arg b now rootFiles = .ok (p, rf1) ∧
      get_local_metadata (base ++ [rf1]) = .ok p ∧
      p.metadata = ⟨arg.version, arg.text, arg.support, url, b, now⟩ ∧
      p.path = get_metadata_path tos_root arg.version := by
  have hw : write_metadata tos_root ch arg b now rootFiles =
      .ok (⟨⟨arg.version, arg.text, arg.support, url, b, now⟩,
            get_metadata_path tos_root arg.version, none⟩,
           upsert rootFiles ⟨get_metadata_path tos_root arg.version,
            .valid ⟨arg.version, arg.text, arg.support, url, b, now⟩⟩) := by
    simp [write_metadata, hurl]
  refine ⟨_, _, hw, ?_, rfl, rfl⟩
  set mNew : LocalToSMetadata := ⟨arg.version, arg.text, arg.support, url, b, now⟩
  set newPath := get_metadata_path tos_root arg.version
  set newf : RecordFile := ⟨newPath, .valid mNew⟩
  set pNew : LocalPair := ⟨mNew, newPath, none⟩
  have hflat : (base ++ [upsert rootFiles newf]).flatten =
      base.flatten ++ upsert rootFiles newf := by
    simp
  have hnd : noDenied (base.flatten ++ upsert rootFiles newf) := by
    intro f hf
    rcases List.mem_append.mp hf with hf | hf
    · exact hbase f hf
    · rcases List.mem_append.mp hf with hf | hf
      · exact hroot f (List.mem_of_mem_filter hf)
      · rcases List.mem_singleton.mp hf with rfl
        simp [newf]
    -- `upsert rootFiles newf = rootFiles.filter _ ++ [newf]` unfolds definitionally
  have hparse : parsePairs (base.flatten ++ upsert rootFiles newf) =
      .ok (validPairs (base.flatten ++ upsert rootFiles newf)) :=
    parsePairs_eq_validPairs _ hnd
  have hsplit : validPairs (base.flatten ++ upsert rootFiles newf) =
      (validPairs base.flatten ++
        validPairs (rootFiles.filter (fun g => g.path ≠ newf.path))) ++ [pNew] := by
    rw [upsert]
    rw [validPairs, List.filterMap_append, List.filterMap_append]
    rw [← validPairs, ← validPairs, ← validPairs]
    have hsing : validPairs [newf] = [pNew] := by
      simp [validPairs, newf, pNew]
    rw [hsing, List.append_assoc]
  have hdom : ∀ q ∈ validPairs base.flatten ++
      validPairs (rootFiles.filter (fun g => g.path ≠ newf.path)),
      q.metadata.version < pNew.metadata.version := by
    intro q hq
    rcases List.mem_append.mp hq with hq | hq
    · exact hB q hq
    · rw [validPairs, List.mem_filterMap] at hq
      obtain ⟨f, hf, hfq⟩ := hq
      have hfmem := List.mem_of_mem_filter hf
      have hfpath : f.path ≠ newf.path := by
        have := List.of_mem_filter hf
        simpa using this
      cases hcontent : f.content with
      | valid m =>
        rw [hcontent] at hfq
        have hq' : q = ⟨m, f.path, none⟩ := by
          simpa using hfq.symm
        have := hR f hfmem m hcontent hfpath
        rw [hq']
        exact this
      | corrupt => rw [hcontent] at hfq; exact absurd hfq (by simp)
      | denied => rw [hcontent] at hfq; exact absurd hfq (by simp)
  have hfm : firstMax (validPairs (base.flatten ++ upsert rootFiles newf)) =
      some pNew := by
    rw [hsplit]
    exact firstMax_append_dominant _ pNew hdom
  have hspec := get_local_metadata_spec (base ++ [upsert rootFiles newf])
    (validPairs (base.flatten ++ upsert rootFiles newf)) (by rw [hflat]; exact hparse)
  rw [hspec, hfm]

/-- Witness for C9 amended: writing version 5 with one strictly older
record (version 1) in a higher-priority root round-trips. -/
theorem c9_roundtrip_amended_witness :
    ∃ p rf1, write_metadata 1 ⟨some "u", "l", "n"⟩
        (.remoteM ⟨5, "new", "s"⟩) true 7 [] = .ok (p, rf1) ∧
      get_local_metadata
          ([[⟨⟨0, 1⟩, FileContent.valid ⟨1, "old", "s", "u", true, 0⟩⟩]] ++ [rf1]) =
        .ok p ∧
      p.metadata = ⟨(MetadataArg.remoteM ⟨5, "new", "s"⟩).version,
        (MetadataArg.remoteM ⟨5, "new", "s"⟩).text,
        (MetadataArg.remoteM ⟨5, "new", "s"⟩).support, "u", true, 7⟩ ∧
      p.path = get_metadata_path 1 (MetadataArg.remoteM ⟨5, "new", "s"⟩).version :=
  c9_roundtrip_amended [[⟨⟨0, 1⟩, FileContent.valid ⟨1, "old", "s", "u", true, 0⟩⟩]]
    [] 1 ⟨some "u", "l", "n"⟩ "u" (.remoteM ⟨5, "new", "s"⟩) true 7
    (by decide) (by decide) (by decide) (by decide)
    (fun f hf => absurd hf (List.not_mem_nil f))

/-- C10: for a channel without a base URL (a multichannel/aggregate
name), `write_metadata`, the endpoint fetch and channel hashing all raise
`ValueError` — before any file write (`write_metadata` returns the error
and no updated listing) and before any network request
(`networkCalled = false`). -/
theorem c10_no_base_url (ch : Channel) (net : NetworkResult) (tos_root : Nat)
    (arg : MetadataArg) (b : Bool) (now : Int) (files : List RecordFile)
    (h : ch.base_url = none) :
    write_metadata tos_root ch arg b now files =
        .error (.valueError "channel must have a base URL.") ∧
    (get_endpoint ch net).result = .error (.valueError
        "channel must have a base URL. (hint: MultiChannel has no endpoint)") ∧
    (get_endpoint ch net).networkCalled = false ∧
    hash_channel ch = .error (.valueError
        "channel must have a base URL. (hint: MultiChannel cannot be hashed)") := by
  refine ⟨?_, ?_, ?_, ?_⟩ <;> simp [write_metadata, get_endpoint, hash_channel, h]

/-- Witness for C10: the `defaults` multichannel has no base URL. -/
theorem c10_no_base_url_witness :
    write_metadata 0 ⟨none, "defaults", "defaults"⟩ (.remoteM ⟨0, "t", "s"⟩)
        true 0 [] = .error (.valueError "channel must have a base URL.") ∧
    (get_endpoint ⟨none, "defaults", "defaults"⟩ .missing).networkCalled = false :=
  ⟨(c10_no_base_url ⟨none, "defaults", "defaults"⟩ .missing 0
      (.remoteM ⟨0, "t", "s"⟩) true 0 [] rfl).1,
   (c10_no_base_url ⟨none, "defaults", "defaults"⟩ .missing 0
      (.remoteM ⟨0, "t", "s"⟩) true 0 [] rfl).2.2.1⟩
